import Mathlib

/-!
# CityFlow-LLM frontend core: a shallow embedding

This development embeds the three core components of the CityFlow dashboard
frontend and proves the specified properties about them:

* `CityFlow.Merge` — `mergeSeries` from
  `src/frontend/components/MetricsChart.tsx` (lines 77–96): the multi-run
  time-axis merger.
* `CityFlow.Replay` — the playback cursor logic of
  `src/frontend/components/ReplayPlayer.tsx` (the `setInterval` effect and
  the slider-driven seek).
* `CityFlow.Stream` — an operational small-step model of
  `connectStateStream` from `src/frontend/lib/websocket.ts`: the closure
  variables become a state record, and every externally triggered callback
  (socket events, timer firings, fetch settlements, the detach call)
  becomes one atomic step, matching the single-threaded JavaScript event
  loop in which a handler runs to completion before the next event.

JavaScript numbers appearing as tick values / metric samples are modelled
as `Int`; the merger and the stream never perform arithmetic on them other
than order comparison on `t`, so no floating-point behaviour is involved.
-/

namespace CityFlow

namespace Merge

/-- One metrics record (`MetricsRecord` in `src/frontend/lib/types.ts`):
a tick `t` plus the record's numeric metric fields, modelled as an
association list from field name to `Option Int` — `none` models a field
that is `null` (or absent, i.e. `undefined` on property access); both are
coerced identically by `value ?? 0` in the source. -/
structure MetricsRecord where
  t : Int
  fields : List (String × Option Int)
deriving Repr, DecidableEq

/-- `MetricsSeries`: a run-id → record-sequence mapping.  JavaScript
object iteration (`Object.entries`) has a definite order, so the mapping
is an association list; object keys are unique, which proofs take as the
`Nodup` hypothesis on the run ids. -/
abbrev MetricsSeries := List (String × List MetricsRecord)

/-- One output row of `mergeSeries`: the `t` field plus the dynamically
added `` `${runId}-${metric}` `` properties in insertion order. -/
structure MergedRow where
  t : Int
  entries : List (String × Int)
deriving Repr, DecidableEq

/-- JavaScript property read `row[key]` on the dynamic part of a bucket:
first binding wins (an association list never holds a duplicate key here,
since assignment overwrites in place). -/
def lookupKey : List (String × Int) → String → Option Int
  | [], _ => none
  | (k', v) :: rest, k => if k' = k then some v else lookupKey rest k

/-- JavaScript property write `bucket[key] = v`: overwrite in place if the
key exists, else append the new property. -/
def setEntry : List (String × Int) → String → Int → List (String × Int)
  | [], k, v => [(k, v)]
  | (k', v') :: rest, k, v =>
      if k' = k then (k, v) :: rest else (k', v') :: setEntry rest k v

/-- `byTime.get(t)` on the accumulating `Map` (keyed by `t`). -/
def rowAt : List MergedRow → Int → Option MergedRow
  | [], _ => none
  | row :: rest, t => if row.t = t then some row else rowAt rest t

/-- The source line `const value = record[metric]; ... value ?? 0`:
a `null`/`undefined` metric field is coerced to `0`. -/
def recordValue (r : MetricsRecord) (metric : String) : Int :=
  (((r.fields.lookup metric).join).getD 0)

/-- One iteration of the inner `records.forEach`: fetch-or-create the
bucket for `record.t`, assign `bucket[key] = value ?? 0`, store it back.
The `Map` keyed by `t` is the list of buckets in insertion order; the
first bucket with matching `t` is updated in place, a missing `t` appends
a fresh bucket at the end (JavaScript `Map` insertion order). -/
def addRecord : List MergedRow → String → Int → Int → List MergedRow
  | [], key, t, v => [⟨t, setEntry [] key v⟩]
  | row :: rest, key, t, v =>
      if row.t = t then ⟨row.t, setEntry row.entries key v⟩ :: rest
      else row :: addRecord rest key t v

/-- The inner `records.forEach(record => ...)` loop for a single run,
with `key = runId ++ "-" ++ metric` fixed. -/
def innerFold (key metric : String) (rs : List MetricsRecord)
    (acc : List MergedRow) : List MergedRow :=
  rs.foldl (fun a r => addRecord a key r.t (recordValue r metric)) acc

/-- The outer `Object.entries(series).forEach(([runId, records]) => ...)`
loop. -/
def accFold (metric : String) (series : MetricsSeries)
    (acc : List MergedRow) : List MergedRow :=
  series.foldl (fun a p => innerFold (p.1 ++ "-" ++ metric) metric p.2 a) acc

/-- The accumulation phase of `mergeSeries` (everything before the final
`sort`). -/
def accumulate (series : MetricsSeries) (metric : String) : List MergedRow :=
  accFold metric series []

/-- `mergeSeries` (`MetricsChart.tsx` lines 77–96).  The final
`Array.from(byTime.values()).sort((a, b) => a.t - b.t)` is modelled with a
stable sort by `t`; the accumulated buckets carry pairwise-distinct `t`
keys (they came from a `Map` keyed by `t`), so every comparison sort —
in particular the engine's `Array.prototype.sort` — produces this exact
sequence. -/
def mergeSeries (series : MetricsSeries) (metric : String) : List MergedRow :=
  List.insertionSort (fun a b => a.t ≤ b.t) (accumulate series metric)

/-- The value found in the merged output at timestamp `t` under the row
property `key`: `none` iff there is no row at `t` or the row lacks the
property. -/
def mergedValue (series : MetricsSeries) (metric : String) (t : Int)
    (key : String) : Option Int :=
  (rowAt (mergeSeries series metric) t).bind (fun row => lookupKey row.entries key)

/-- The effective record of one run at tick `t`: the source's `forEach`
writes `bucket[key]` once per record, so the last record with that `t`
wins. -/
def runLast : List MetricsRecord → Int → Option MetricsRecord
  | [], _ => none
  | r :: rest, t =>
      match runLast rest t with
      | some r' => some r'
      | none => if r.t = t then some r else none

/-- The value a run contributes at tick `t`: the coerced metric value of
its effective (last) record there, if any. -/
def runValue (rs : List MetricsRecord) (m : String) (t : Int) : Option Int :=
  (runLast rs t).map (fun r => recordValue r m)

/-- The row timestamps of an accumulated bucket list. -/
def rowTs (acc : List MergedRow) : List Int :=
  acc.map MergedRow.t

/-- Reading the dynamic part of a row at `t` in an arbitrary bucket list. -/
def entryAt (acc : List MergedRow) (t : Int) (k : String) : Option Int :=
  (rowAt acc t).bind (fun row => lookupKey row.entries k)

instance : IsTotal MergedRow (fun a b => a.t ≤ b.t) :=
  ⟨fun a b => le_total a.t b.t⟩

instance : IsTrans MergedRow (fun a b => a.t ≤ b.t) :=
  ⟨fun _ _ _ h h' => le_trans h h'⟩

/-- The spec's own reference example (§8): two runs, `runA` sampled at
ticks 0 and 1, `runB` sampled only at tick 1. -/
def sampleRunA : List MetricsRecord :=
  [⟨0, [("vehicle_count", some 5)]⟩, ⟨1, [("vehicle_count", some 7)]⟩]

def sampleRunB : List MetricsRecord :=
  [⟨1, [("vehicle_count", some 3)]⟩]

def sampleSeries : MetricsSeries :=
  [("runA", sampleRunA), ("runB", sampleRunB)]

/-- The same run mapping in the opposite iteration order. -/
def samplePerm : MetricsSeries :=
  [("runB", sampleRunB), ("runA", sampleRunA)]

/-- A run whose single record carries a `null` metric field. -/
def sampleNullSeries : MetricsSeries :=
  [("runC", [⟨5, [("avg_speed", none)]⟩])]

end Merge

namespace Replay

/-- The component state touched by the playback logic of
`ReplayPlayer.tsx`: `cursor` (`useState(0)`) and `playing`
(`useState(false)`). -/
structure PlayerState where
  cursor : Nat
  playing : Bool
deriving Repr, DecidableEq

/-- The `setInterval` callback (`ReplayPlayer.tsx` lines 31–38), active
only while `playing && frames.length > 0`:
`setCursor(prev => prev >= frames.length - 1 ? 0 : prev + 1)`.
`n` is `frames.length`; the callback never touches `playing`. -/
def intervalTick (n : Nat) (s : PlayerState) : PlayerState :=
  if s.cursor ≥ n - 1 then { s with cursor := 0 }
  else { s with cursor := s.cursor + 1 }

/-- Source (`ReplayPlayer.tsx` lines 93–94): the slider bounds `min={0}`
and `max={Math.max(frames.length - 1, 0)}`. -/
def sliderMin : Int := 0

def sliderMax (n : Nat) : Int := max ((n : Int) - 1) 0

/-- Modelled from the spec: the `Slider` widget (`@/components/ui/slider`,
repository code not present under `src/`) clamps the requested value into
`[min, max]` before reporting it through `onValueChange`, which the source
then stores unchanged via `setCursor(value[0])`.  `seek n p` is the cursor
stored after requesting position `p` on an `n`-frame sequence, with the
`min`/`max` bounds taken from the source. -/
def seek (n : Nat) (p : Int) : Int :=
  min (max p sliderMin) (sliderMax n)

end Replay

namespace Stream

/-- A push-transport message as dispatched by `socket.onmessage`
(`websocket.ts` lines 83–93).  Snapshots are modelled abstractly by a
`Nat` identity — the handler only parses and forwards them. -/
inductive Msg where
  | malformed          -- `JSON.parse(event.data)` throws
  | nullish            -- parses, but `payload?.state ?? payload` is falsy
  | wrapped (v : Nat)  -- `{ state: v }`
  | bare (v : Nat)     -- a bare snapshot
deriving Repr, DecidableEq

/-- One listener invocation, tagged with the transport that performed it:
`push` from `socket.onmessage`, `pull` from the `pollState`
continuation. -/
inductive Delivery where
  | push (v : Nat)
  | pull (v : Nat)
deriving Repr, DecidableEq

inductive TimerKind where
  | fallback   -- the 500 ms `setTimeout(pollState, FALLBACK_INTERVAL_MS)`
  | reconnect  -- the 3000 ms reconnect backoff of `scheduleReconnect`
deriving Repr, DecidableEq

/-- One fallback pull request (`fetchState(controller.signal)`), keyed by
the id of the `AbortController` created for it in `pollState`. -/
structure PullReq where
  cid : Nat
  aborted : Bool   -- the controller's abort signal has fired
  settled : Bool   -- the awaited `fetchState` promise has settled
deriving Repr, DecidableEq

/-- The WebSocket object currently held in the `socket` variable. -/
structure Socket where
  sid : Nat
  closedByClient : Bool  -- `socket.close()` was called by `cleanup`
deriving Repr, DecidableEq

/-- The state of one `connectStateStream` session.  `stopped`,
`fallbackTimer`, `reconnectTimer`, `controller` and `socket` are the five
mutable closure variables of the source (lines 14–18); the rest is
bookkeeping for the environment: `pending` holds the timers scheduled and
not yet fired or cleared, `requests` records every pull request issued in
the session, `log` records listener invocations in order, and `nextId`
supplies fresh ids for timers, controllers and sockets. -/
structure StreamState where
  stopped : Bool
  fallbackTimer : Option Nat
  reconnectTimer : Option Nat
  controller : Option Nat
  socket : Option Socket
  pending : List (Nat × TimerKind)
  requests : List PullReq
  log : List Delivery
  nextId : Nat
deriving Repr, DecidableEq

/-- `controller.abort()`: fires the abort signal of the request issued
under controller `cid`. -/
def abortReqs (cid : Nat) (reqs : List PullReq) : List PullReq :=
  reqs.map (fun r => if r.cid = cid then { r with aborted := true } else r)

/-- Promise settlement of the request under controller `cid`. -/
def settleReq (cid : Nat) (reqs : List PullReq) : List PullReq :=
  reqs.map (fun r => if r.cid = cid then { r with settled := true } else r)

/-- `window.clearTimeout(id)`: a no-op if the timer already fired. -/
def clearTimer (id : Nat) (pending : List (Nat × TimerKind)) :
    List (Nat × TimerKind) :=
  pending.filter (fun e => decide (e.1 ≠ id))

/-- `stopFallback` (lines 22–31): clear the fallback timer if scheduled,
abort and drop the current controller if any. -/
def stopFallback (s : StreamState) : StreamState :=
  let s1 := match s.fallbackTimer with
    | some id => { s with pending := clearTimer id s.pending, fallbackTimer := none }
    | none => s
  match s1.controller with
  | some cid => { s1 with requests := abortReqs cid s1.requests, controller := none }
  | none => s1

/-- The synchronous prefix of `pollState` (lines 33–40): the `stopped`
guard, `controller?.abort()`, a fresh `AbortController`, and the issue of
`fetchState(controller.signal)`.  Control returns to the event loop at the
`await`; the rest of the function body is `pollStateFinish`. -/
def pollStateStart (s : StreamState) : StreamState :=
  if s.stopped then s
  else
    let reqs := match s.controller with
      | some cid => abortReqs cid s.requests
      | none => s.requests
    { s with controller := some s.nextId,
             requests := reqs ++ [⟨s.nextId, false, false⟩],
             nextId := s.nextId + 1 }

/-- The continuation of `pollState` after the `await` (lines 41–47), run
in the same event-loop task that settles the `fetchState` promise:
`res = some (some v)` models resolution with a truthy `state`,
`res = some none` resolution with `state: null`, and `res = none`
rejection (abort, network failure, non-success status — all reach the
`catch`).  Either way line 47 then reschedules the fallback timer — the
source has no `stopped` check after the `await`. -/
def pollStateFinish (res : Option (Option Nat)) (s : StreamState) : StreamState :=
  let s1 := match res with
    | some (some v) => { s with log := s.log ++ [Delivery.pull v] }
    | _ => s
  { s1 with fallbackTimer := some s1.nextId,
            pending := s1.pending ++ [(s1.nextId, TimerKind.fallback)],
            nextId := s1.nextId + 1 }

/-- `ensureFallback` (lines 50–54): start polling unless the `fallbackTimer`
variable is non-null (the variable may be stale: it is not cleared when
the timer fires). -/
def ensureFallback (s : StreamState) : StreamState :=
  if s.fallbackTimer = none then pollStateStart s else s

/-- `scheduleReconnect` (lines 56–64). -/
def scheduleReconnect (s : StreamState) : StreamState :=
  if s.reconnectTimer ≠ none ∨ s.stopped = true then s
  else { s with reconnectTimer := some s.nextId,
                pending := s.pending ++ [(s.nextId, TimerKind.reconnect)],
                nextId := s.nextId + 1 }

/-- `connectSocket` (lines 66–104).  `ok` is the environment's choice of
whether `new WebSocket(wsEndpoint)` constructs or throws; on a throw the
`socket` variable keeps its previous value and the fallback + reconnect
path runs. -/
def connectSocket (ok : Bool) (s : StreamState) : StreamState :=
  if s.stopped then s
  else if ok then
    { s with socket := some ⟨s.nextId, false⟩, nextId := s.nextId + 1 }
  else
    scheduleReconnect (ensureFallback s)

/-- `socket.onopen` (lines 79–81). -/
def onOpen (s : StreamState) : StreamState :=
  stopFallback s

/-- `socket.onmessage` (lines 83–93): a malformed payload is caught and
logged, a falsy parsed state is skipped, otherwise the listener is
invoked with the (wrapped or bare) snapshot. -/
def onMessage (m : Msg) (s : StreamState) : StreamState :=
  match m with
  | .malformed => s
  | .nullish => s
  | .wrapped v => { s with log := s.log ++ [Delivery.push v] }
  | .bare v => { s with log := s.log ++ [Delivery.push v] }

/-- `socket.onerror` (lines 95–98). -/
def onError (s : StreamState) : StreamState :=
  ensureFallback s

/-- `socket.onclose` (lines 100–103). -/
def onClose (s : StreamState) : StreamState :=
  scheduleReconnect (ensureFallback s)

/-- `cleanup` (lines 106–114): the detach handle returned by
`connectStateStream`. -/
def cleanup (s : StreamState) : StreamState :=
  let s1 := stopFallback { s with stopped := true }
  let s2 := match s1.reconnectTimer with
    | some id => { s1 with pending := clearTimer id s1.pending,
                           reconnectTimer := none }
    | none => s1
  match s2.socket with
  | some sock => { s2 with socket := some { sock with closedByClient := true } }
  | none => s2

/-- Whether the current socket can still fire `open`/`message`/`error`:
once `close()` is called the ready state leaves OPEN and queued receive
tasks are dropped, so only a not-client-closed socket delivers. -/
def liveSocket (s : StreamState) : Bool :=
  match s.socket with
  | some sock => !sock.closedByClient
  | none => false

def findReq (cid : Nat) (reqs : List PullReq) : Option PullReq :=
  reqs.find? (fun r => r.cid == cid)

/-- The environment's events: socket callbacks, timer firings, promise
settlements, and the user's detach call.  `fireTimer`'s `ok` carries the
`new WebSocket` outcome used if the timer is the reconnect backoff. -/
inductive Ev where
  | sockOpen
  | sockMsg (m : Msg)
  | sockError
  | sockClose
  | fireTimer (id : Nat) (ok : Bool)
  | settleOk (cid : Nat) (v : Option Nat)
  | settleErr (cid : Nat)
  | detach
deriving Repr, DecidableEq

/-- One atomic event-loop task.  Guards make disabled events no-ops:
socket callbacks need a live (resp. existing) socket, a timer fires only
while pending, a promise settles only once, and an aborted fetch can only
reject. -/
def step (s : StreamState) (e : Ev) : StreamState :=
  match e with
  | .sockOpen => if liveSocket s then onOpen s else s
  | .sockMsg m => if liveSocket s then onMessage m s else s
  | .sockError => if liveSocket s then onError s else s
  | .sockClose => if s.socket.isSome then onClose s else s
  | .fireTimer id ok =>
      match s.pending.find? (fun e' => e'.1 == id) with
      | some (_, TimerKind.fallback) =>
          pollStateStart { s with pending := clearTimer id s.pending }
      | some (_, TimerKind.reconnect) =>
          connectSocket ok { s with pending := clearTimer id s.pending,
                                    reconnectTimer := none }
      | none => s
  | .settleOk cid v =>
      match findReq cid s.requests with
      | some r =>
          if r.settled ∨ r.aborted then s
          else pollStateFinish (some v) { s with requests := settleReq cid s.requests }
      | none => s
  | .settleErr cid =>
      match findReq cid s.requests with
      | some r =>
          if r.settled then s
          else pollStateFinish none { s with requests := settleReq cid s.requests }
      | none => s
  | .detach => cleanup s

def initState : StreamState :=
  ⟨false, none, none, none, none, [], [], [], 0⟩

/-- `connectStateStream(listener)`: initialize the closure variables and
synchronously run `connectSocket()`; `ok` is the environment's choice for
the initial `new WebSocket`. -/
def attach (ok : Bool) : StreamState :=
  connectSocket ok initState

def run (s : StreamState) (evs : List Ev) : StreamState :=
  evs.foldl step s

/-- The fallback pull requests currently in flight with their abort signal
not fired. -/
def activePulls (s : StreamState) : List PullReq :=
  s.requests.filter (fun r => !r.settled && !r.aborted)

/-- The controller ids of all requests of the session, in issue order. -/
def cids (s : StreamState) : List Nat :=
  s.requests.map PullReq.cid

/-- The request-slot invariant of the session: controller ids are below
the fresh-id counter and pairwise distinct, and any in-flight, unaborted
request is the one owned by the current `controller` variable. -/
def ReqInv (s : StreamState) : Prop :=
  (∀ c ∈ cids s, c < s.nextId) ∧
  (cids s).Nodup ∧
  (∀ r ∈ s.requests, r.settled = false → r.aborted = false →
    s.controller = some r.cid)

/-- A quiescent post-detach session: the socket no longer delivers and
every pull request has settled or been aborted. -/
def DetachedQuiet (s : StreamState) : Prop :=
  liveSocket s = false ∧ ∀ r ∈ s.requests, r.settled = true ∨ r.aborted = true

end Stream

namespace Merge

theorem lookupKey_setEntry (es : List (String × Int)) (k : String) (v : Int)
    (k' : String) :
    lookupKey (setEntry es k v) k' = if k = k' then some v else lookupKey es k' := by
  induction es with
  | nil => simp [setEntry, lookupKey]
  | cons e rest ih =>
      obtain ⟨k'', v''⟩ := e
      by_cases h : k'' = k
      · subst h
        simp only [setEntry, if_pos rfl, lookupKey]
        split_ifs <;> simp_all [lookupKey]
      · simp only [setEntry, if_neg h, lookupKey, ih]
        split_ifs <;> simp_all

theorem entryAt_addRecord (acc : List MergedRow) (key : String) (t v : Int)
    (t' : Int) (k' : String) :
    entryAt (addRecord acc key t v) t' k' =
      if t = t' ∧ key = k' then some v else entryAt acc t' k' := by
  induction acc with
  | nil =>
      by_cases ht : t = t'
      · subst ht
        by_cases hk : key = k' <;>
          simp [addRecord, entryAt, rowAt, setEntry, lookupKey, hk]
      · simp [addRecord, entryAt, rowAt, ht]
  | cons row rest ih =>
      by_cases hrt : row.t = t
      · subst hrt
        by_cases ht' : row.t = t'
        · subst ht'
          by_cases hk : key = k' <;>
            simp [addRecord, entryAt, rowAt, lookupKey_setEntry, hk]
        · simp [addRecord, entryAt, rowAt, ht']
      · by_cases ht' : row.t = t'
        · have hne : ¬ t = t' := fun h => hrt (ht'.trans h.symm)
          simp only [addRecord, if_neg hrt]
          simp [entryAt, rowAt, ht', hne]
        · have h1 : entryAt (row :: addRecord rest key t v) t' k' =
              entryAt (addRecord rest key t v) t' k' := by
            simp [entryAt, rowAt, ht']
          have h2 : entryAt (row :: rest) t' k' = entryAt rest t' k' := by
            simp [entryAt, rowAt, ht']
          simp only [addRecord, if_neg hrt]
          rw [h1, h2, ih]

theorem mem_rowTs_addRecord (acc : List MergedRow) (key : String) (t v : Int)
    (t' : Int) :
    t' ∈ rowTs (addRecord acc key t v) ↔ t' ∈ rowTs acc ∨ t' = t := by
  induction acc with
  | nil => simp [addRecord, rowTs]
  | cons row rest ih =>
      by_cases hrt : row.t = t
      · subst hrt
        simp [addRecord, rowTs]
        tauto
      · simp only [addRecord, if_neg hrt, rowTs, List.map_cons, List.mem_cons] at *
        rw [ih]
        tauto

theorem nodup_rowTs_addRecord (acc : List MergedRow) (key : String) (t v : Int)
    (h : (rowTs acc).Nodup) :
    (rowTs (addRecord acc key t v)).Nodup := by
  induction acc with
  | nil => simp [addRecord, rowTs]
  | cons row rest ih =>
      simp only [rowTs, List.map_cons, List.nodup_cons] at h
      by_cases hrt : row.t = t
      · simpa [addRecord, if_pos hrt, rowTs, List.nodup_cons, hrt] using h
      · simp only [addRecord, if_neg hrt, rowTs, List.map_cons, List.nodup_cons]
        refine ⟨fun hmem => ?_, ih h.2⟩
        rcases (mem_rowTs_addRecord rest key t v row.t).1 hmem with hm | hm
        · exact h.1 hm
        · exact hrt hm

theorem innerFold_cons (key m : String) (r : MetricsRecord)
    (rs : List MetricsRecord) (acc : List MergedRow) :
    innerFold key m (r :: rs) acc =
      innerFold key m rs (addRecord acc key r.t (recordValue r m)) := rfl

theorem entryAt_innerFold_ne (key m : String) (rs : List MetricsRecord)
    (acc : List MergedRow) (t : Int) (k : String) (h : key ≠ k) :
    entryAt (innerFold key m rs acc) t k = entryAt acc t k := by
  induction rs generalizing acc with
  | nil => rfl
  | cons r rest ih =>
      rw [innerFold_cons, ih, entryAt_addRecord]
      simp [h]

theorem entryAt_innerFold_self (key m : String) (rs : List MetricsRecord)
    (acc : List MergedRow) (t : Int) :
    entryAt (innerFold key m rs acc) t key =
      (runValue rs m t).or (entryAt acc t key) := by
  induction rs generalizing acc with
  | nil => simp [innerFold, runValue, runLast]
  | cons r rest ih =>
      rw [innerFold_cons, ih, entryAt_addRecord]
      cases h : runLast rest t with
      | some r' => simp [runValue, runLast, h]
      | none =>
          by_cases hrt : r.t = t
          · simp [runValue, runLast, h, hrt]
          · simp [runValue, runLast, h, hrt]

theorem mem_rowTs_innerFold (key m : String) (rs : List MetricsRecord)
    (acc : List MergedRow) (t' : Int) :
    t' ∈ rowTs (innerFold key m rs acc) ↔
      t' ∈ rowTs acc ∨ ∃ r ∈ rs, r.t = t' := by
  induction rs generalizing acc with
  | nil => simp [innerFold]
  | cons r rest ih =>
      rw [innerFold_cons, ih, mem_rowTs_addRecord]
      simp only [List.mem_cons]
      constructor
      · rintro ((h | h) | ⟨r', hr', ht'⟩)
        · exact Or.inl h
        · exact Or.inr ⟨r, Or.inl rfl, h.symm⟩
        · exact Or.inr ⟨r', Or.inr hr', ht'⟩
      · rintro (h | ⟨r', (rfl | hr'), ht'⟩)
        · exact Or.inl (Or.inl h)
        · exact Or.inl (Or.inr ht'.symm)
        · exact Or.inr ⟨r', hr', ht'⟩

theorem nodup_rowTs_innerFold (key m : String) (rs : List MetricsRecord)
    (acc : List MergedRow) (h : (rowTs acc).Nodup) :
    (rowTs (innerFold key m rs acc)).Nodup := by
  induction rs generalizing acc with
  | nil => exact h
  | cons r rest ih =>
      rw [innerFold_cons]
      exact ih _ (nodup_rowTs_addRecord _ _ _ _ h)

theorem accFold_cons (m : String) (p : String × List MetricsRecord)
    (rest : MetricsSeries) (acc : List MergedRow) :
    accFold m (p :: rest) acc =
      accFold m rest (innerFold (p.1 ++ "-" ++ m) m p.2 acc) := rfl

/-- `` `${runId}-${metric}` `` is injective in the run id for a fixed
metric name, so distinct runs never collide on a row property. -/
theorem key_inj {a b m : String} (h : a ++ "-" ++ m = b ++ "-" ++ m) :
    a = b := by
  have hd := congrArg String.data h
  simp only [String.data_append] at hd
  have h1 : a.data ++ ['-'] = b.data ++ ['-'] := List.append_cancel_right hd
  exact String.ext (List.append_cancel_right h1)

theorem entryAt_accFold_untouched (m : String) (series : MetricsSeries)
    (acc : List MergedRow) (t : Int) (k : String)
    (h : ∀ p ∈ series, p.1 ++ "-" ++ m ≠ k) :
    entryAt (accFold m series acc) t k = entryAt acc t k := by
  induction series generalizing acc with
  | nil => rfl
  | cons p rest ih =>
      rw [accFold_cons, ih _ (fun q hq => h q (List.mem_cons_of_mem _ hq)),
        entryAt_innerFold_ne _ _ _ _ _ _ (h p (List.mem_cons_self _ _))]

theorem entryAt_accFold (m : String) (series : MetricsSeries)
    (acc : List MergedRow) (t : Int) (rid : String) (rs : List MetricsRecord)
    (hnd : (series.map Prod.fst).Nodup) (hmem : (rid, rs) ∈ series) :
    entryAt (accFold m series acc) t (rid ++ "-" ++ m) =
      (runValue rs m t).or (entryAt acc t (rid ++ "-" ++ m)) := by
  induction series generalizing acc with
  | nil => cases hmem
  | cons p rest ih =>
      simp only [List.map_cons, List.nodup_cons] at hnd
      rcases List.mem_cons.1 hmem with heq | htl
      · obtain rfl : p = (rid, rs) := heq.symm
        rw [accFold_cons]
        rw [entryAt_accFold_untouched m rest _ t _ (fun q hq habs => by
          refine hnd.1 ?_
          rw [← key_inj habs]
          exact List.mem_map.2 ⟨q, hq, rfl⟩)]
        exact entryAt_innerFold_self _ _ _ _ _
      · have hne : p.1 ++ "-" ++ m ≠ rid ++ "-" ++ m := fun habs => by
          refine hnd.1 ?_
          rw [key_inj habs]
          exact List.mem_map.2 ⟨(rid, rs), htl, rfl⟩
        rw [accFold_cons, ih _ hnd.2 htl,
          entryAt_innerFold_ne _ _ _ _ _ _ hne]

theorem mem_rowTs_accFold (m : String) (series : MetricsSeries)
    (acc : List MergedRow) (t' : Int) :
    t' ∈ rowTs (accFold m series acc) ↔
      t' ∈ rowTs acc ∨ ∃ p ∈ series, ∃ r ∈ p.2, r.t = t' := by
  induction series generalizing acc with
  | nil => simp [accFold]
  | cons p rest ih =>
      rw [accFold_cons, ih, mem_rowTs_innerFold]
      simp only [List.mem_cons]
      constructor
      · rintro ((h | h) | h)
        · exact Or.inl h
        · exact Or.inr ⟨p, Or.inl rfl, h⟩
        · obtain ⟨q, hq, hr⟩ := h
          exact Or.inr ⟨q, Or.inr hq, hr⟩
      · rintro (h | ⟨q, (rfl | hq), hr⟩)
        · exact Or.inl (Or.inl h)
        · exact Or.inl (Or.inr hr)
        · exact Or.inr ⟨q, hq, hr⟩

theorem nodup_rowTs_accFold (m : String) (series : MetricsSeries)
    (acc : List MergedRow) (h : (rowTs acc).Nodup) :
    (rowTs (accFold m series acc)).Nodup := by
  induction series generalizing acc with
  | nil => exact h
  | cons p rest ih =>
      rw [accFold_cons]
      exact ih _ (nodup_rowTs_innerFold _ _ _ _ h)

theorem nodup_rowTs_accumulate (series : MetricsSeries) (m : String) :
    (rowTs (accumulate series m)).Nodup :=
  nodup_rowTs_accFold m series [] List.nodup_nil

theorem mem_rowTs_accumulate (series : MetricsSeries) (m : String) (t : Int) :
    t ∈ rowTs (accumulate series m) ↔ ∃ p ∈ series, ∃ r ∈ p.2, r.t = t := by
  rw [accumulate, mem_rowTs_accFold]
  simp [rowTs]

theorem rowAt_eq_some (l : List MergedRow) (t : Int) (row : MergedRow)
    (h : rowAt l t = some row) : row ∈ l ∧ row.t = t := by
  induction l with
  | nil => cases h
  | cons r rest ih =>
      by_cases hrt : r.t = t
      · simp only [rowAt, if_pos hrt] at h
        cases h
        exact ⟨List.mem_cons_self _ _, hrt⟩
      · simp only [rowAt, if_neg hrt] at h
        obtain ⟨hm, ht⟩ := ih h
        exact ⟨List.mem_cons_of_mem _ hm, ht⟩

theorem rowAt_eq_none (l : List MergedRow) (t : Int) :
    rowAt l t = none ↔ ∀ row ∈ l, row.t ≠ t := by
  induction l with
  | nil => simp [rowAt]
  | cons r rest ih =>
      by_cases hrt : r.t = t
      · simp only [rowAt, if_pos hrt]
        constructor
        · rintro ⟨⟩
        · intro h
          exact absurd hrt (h r (List.mem_cons_self _ _))
      · simp only [rowAt, if_neg hrt, ih]
        constructor
        · intro h row hm
          rcases List.mem_cons.1 hm with rfl | hm'
          · exact hrt
          · exact h row hm'
        · exact fun h row hm => h row (List.mem_cons_of_mem _ hm)

theorem rowAt_isSome_of_mem (l : List MergedRow) (t : Int) (row : MergedRow)
    (hm : row ∈ l) (ht : row.t = t) : (rowAt l t).isSome := by
  cases h : rowAt l t with
  | some _ => rfl
  | none => exact absurd ht ((rowAt_eq_none l t).1 h row hm)

/-- On bucket lists with pairwise-distinct timestamps, `rowAt` is
invariant under permutation: it finds *the* row with that `t`. -/
theorem rowAt_perm {l l' : List MergedRow} (h : l.Perm l')
    (hn : (rowTs l).Nodup) (t : Int) : rowAt l t = rowAt l' t := by
  cases h1 : rowAt l t with
  | none =>
      symm
      rw [rowAt_eq_none]
      intro row hm
      exact (rowAt_eq_none l t).1 h1 row (h.symm.subset hm)
  | some row =>
      obtain ⟨hm, ht⟩ := rowAt_eq_some _ _ _ h1
      have h2 := rowAt_isSome_of_mem l' t row (h.subset hm) ht
      obtain ⟨row', h3⟩ := Option.isSome_iff_exists.1 h2
      obtain ⟨hm', ht'⟩ := rowAt_eq_some _ _ _ h3
      have : row = row' :=
        List.inj_on_of_nodup_map hn hm (h.symm.subset hm') (ht.trans ht'.symm)
      rw [h3, this]

theorem mergedValue_eq_entryAt (series : MetricsSeries) (m : String)
    (t : Int) (k : String) :
    mergedValue series m t k = entryAt (accumulate series m) t k := by
  unfold mergedValue entryAt mergeSeries
  rw [rowAt_perm (List.perm_insertionSort _ _)
    (by
      have hp := (List.perm_insertionSort (fun a b : MergedRow => a.t ≤ b.t)
        (accumulate series m)).map MergedRow.t
      exact hp.nodup_iff.2 (nodup_rowTs_accumulate series m))]

/-- The central characterization of `mergeSeries`: for a run mapping with
distinct run ids, the merged output holds, at `(t, rid ++ "-" ++ m)`,
exactly the coerced value of `rid`'s last record at `t` — and *no entry at
all* when that run has no record at `t`. -/
theorem mergedValue_char (series : MetricsSeries) (m : String) (t : Int)
    (rid : String) (rs : List MetricsRecord)
    (hnd : (series.map Prod.fst).Nodup) (hmem : (rid, rs) ∈ series) :
    mergedValue series m t (rid ++ "-" ++ m) =
      (runLast rs t).map (fun r => recordValue r m) := by
  rw [mergedValue_eq_entryAt, accumulate,
    entryAt_accFold m series [] t rid rs hnd hmem,
    show entryAt [] t (rid ++ "-" ++ m) = none from rfl,
    Option.or_none, runValue]

theorem runLast_eq_none (rs : List MetricsRecord) (t : Int) :
    runLast rs t = none ↔ ∀ r ∈ rs, r.t ≠ t := by
  induction rs with
  | nil => simp [runLast]
  | cons r rest ih =>
      constructor
      · intro h r' hm ht
        simp only [runLast] at h
        cases hrest : runLast rest t with
        | some _ => rw [hrest] at h; cases h
        | none =>
            rcases List.mem_cons.1 hm with rfl | hm'
            · rw [hrest, if_pos ht] at h
              cases h
            · exact absurd ht (ih.1 hrest r' hm')
      · intro h
        have hrest : runLast rest t = none :=
          ih.2 fun r' hm' => h r' (List.mem_cons_of_mem _ hm')
        simp [runLast, hrest, h r (List.mem_cons_self _ _)]

theorem sorted_mergeSeries (series : MetricsSeries) (m : String) :
    List.Pairwise (fun a b : MergedRow => a.t ≤ b.t) (mergeSeries series m) :=
  List.sorted_insertionSort _ _

theorem nodup_rowTs_mergeSeries (series : MetricsSeries) (m : String) :
    (rowTs (mergeSeries series m)).Nodup :=
  ((List.perm_insertionSort (fun a b : MergedRow => a.t ≤ b.t)
      (accumulate series m)).map MergedRow.t).nodup_iff.2
    (nodup_rowTs_accumulate series m)

theorem pairwise_lt_mergeSeries (series : MetricsSeries) (m : String) :
    List.Pairwise (fun a b : MergedRow => a.t < b.t) (mergeSeries series m) := by
  have h1 := sorted_mergeSeries series m
  have h2 : List.Pairwise (fun a b : MergedRow => a.t ≠ b.t)
      (mergeSeries series m) :=
    List.pairwise_map.1 (nodup_rowTs_mergeSeries series m)
  exact (h1.and h2).imp fun h => lt_of_le_of_ne h.1 h.2

theorem exists_row_mergeSeries (series : MetricsSeries) (m : String) (t : Int) :
    (∃ row ∈ mergeSeries series m, row.t = t) ↔
      ∃ p ∈ series, ∃ r ∈ p.2, r.t = t := by
  have h := mem_rowTs_accumulate series m t
  simp only [rowTs, List.mem_map] at h
  rw [← h]
  simp [mergeSeries, List.mem_insertionSort]

/-- **C1, counterexample.**  The claim says a run with no record at a
present timestamp `t` gets an explicit `<run_id>-<metric>` entry with
value `0` in the merged row at `t`.  On the spec's own §8 example the code
does the opposite: `t = 0` is present (from `runA`), `runB` is a run of
the mapping with no record at `t = 0`, the merged row at `t = 0` exists —
and it has *no* `runB-vehicle_count` property at all (lookup is `none`,
not `some 0`). -/
theorem c1_counterexample :
    ("runB", sampleRunB) ∈ sampleSeries ∧
    (∃ p ∈ sampleSeries, ∃ r ∈ p.2, r.t = 0) ∧
    (∀ r ∈ sampleRunB, r.t ≠ 0) ∧
    (rowAt (mergeSeries sampleSeries "vehicle_count") 0).isSome = true ∧
    mergedValue sampleSeries "vehicle_count" 0 ("runB" ++ "-" ++ "vehicle_count")
      = none := by
  refine ⟨by decide, ⟨("runA", sampleRunA), by decide, sampleRunA[0], by decide, rfl⟩,
    by decide, by decide, by decide⟩

/-- **C1, amended.**  For every run mapping with distinct run ids, a run
with no record at `t` contributes *no* `<run_id>-<metric>` entry to the
merged row at `t`: the key is absent (`none`), not zero-filled.  (Zero is
used only for `null`/`undefined` metric fields of records that are
present, see C10.) -/
theorem c1_missing_run_entry_absent (series : MetricsSeries) (m : String)
    (t : Int) (rid : String) (rs : List MetricsRecord)
    (hnd : (series.map Prod.fst).Nodup) (hmem : (rid, rs) ∈ series)
    (habs : ∀ r ∈ rs, r.t ≠ t) :
    mergedValue series m t (rid ++ "-" ++ m) = none := by
  rw [mergedValue_char series m t rid rs hnd hmem, (runLast_eq_none rs t).2 habs]
  rfl

/-- Witness for C1 (amended) at the §8 example. -/
theorem c1_missing_run_entry_absent_witness :
    ((sampleSeries.map Prod.fst).Nodup ∧ ("runB", sampleRunB) ∈ sampleSeries ∧
      (∀ r ∈ sampleRunB, r.t ≠ 0)) ∧
    mergedValue sampleSeries "vehicle_count" 0 ("runB" ++ "-" ++ "vehicle_count")
      = none :=
  ⟨⟨by decide, by decide, by decide⟩,
    c1_missing_run_entry_absent sampleSeries "vehicle_count" 0 "runB" sampleRunB
      (by decide) (by decide) (by decide)⟩

/-- **C10.**  When a run *does* have a record at `t` (its effective, i.e.
last, record there) but that record's metric field is `null`/`undefined`,
the merged row at `t` holds the `<run_id>-<metric>` entry with the numeric
value `0` — the `value ?? 0` coercion. -/
theorem c10_null_metric_zero_filled (series : MetricsSeries) (m : String)
    (t : Int) (rid : String) (rs : List MetricsRecord) (r : MetricsRecord)
    (hnd : (series.map Prod.fst).Nodup) (hmem : (rid, rs) ∈ series)
    (hlast : runLast rs t = some r)
    (hnull : (r.fields.lookup m).join = none) :
    mergedValue series m t (rid ++ "-" ++ m) = some 0 := by
  have hz : recordValue r m = 0 := by
    unfold recordValue
    rw [hnull]
    rfl
  rw [mergedValue_char series m t rid rs hnd hmem, hlast]
  simp [hz]

/-- Witness for C10: a run whose record at tick 5 has `avg_speed: null`
produces `some 0` under `runC-avg_speed`. -/
theorem c10_null_metric_zero_filled_witness :
    ((sampleNullSeries.map Prod.fst).Nodup ∧
      ("runC", [(⟨5, [("avg_speed", none)]⟩ : MetricsRecord)]) ∈ sampleNullSeries ∧
      runLast [(⟨5, [("avg_speed", none)]⟩ : MetricsRecord)] 5 =
        some ⟨5, [("avg_speed", none)]⟩ ∧
      ((⟨5, [("avg_speed", none)]⟩ : MetricsRecord).fields.lookup "avg_speed").join
        = none) ∧
    mergedValue sampleNullSeries "avg_speed" 5 ("runC" ++ "-" ++ "avg_speed")
      = some 0 :=
  ⟨⟨by decide, by decide, by decide, by decide⟩,
    c10_null_metric_zero_filled sampleNullSeries "avg_speed" 5 "runC"
      [⟨5, [("avg_speed", none)]⟩] ⟨5, [("avg_speed", none)]⟩
      (by decide) (by decide) (by decide) (by decide)⟩

/-- **C7.**  The merged output is strictly ascending in `t` (hence one row
per distinct timestamp, no duplicates), and a row exists at `t` exactly
when some input run has a record at `t` (no observed timestamp is
missing). -/
theorem c7_rows_sorted_unique_complete (series : MetricsSeries) (m : String) :
    List.Pairwise (fun a b : MergedRow => a.t < b.t) (mergeSeries series m) ∧
    ∀ t : Int, (∃ row ∈ mergeSeries series m, row.t = t) ↔
      ∃ p ∈ series, ∃ r ∈ p.2, r.t = t :=
  ⟨pairwise_lt_mergeSeries series m, fun t => exists_row_mergeSeries series m t⟩

/-- **C6.**  `mergeSeries` is a pure function of its inputs (it is a
Lean function of `series` and `metric`; the source likewise reads only its
two arguments and allocates a fresh `Map` per call, so identical inputs
give structurally identical outputs), and the result does not depend on
the iteration order of the run mapping: permuting the runs (ids distinct,
as JavaScript object keys are) yields the same row order — rows are sorted
by `t` after accumulation — and the same value under every row property. -/
theorem c6_merge_order_independent (s₁ s₂ : MetricsSeries) (m : String)
    (hperm : s₁.Perm s₂) (hnd : (s₁.map Prod.fst).Nodup) :
    (mergeSeries s₁ m).map MergedRow.t = (mergeSeries s₂ m).map MergedRow.t ∧
    ∀ (t : Int) (k : String), mergedValue s₁ m t k = mergedValue s₂ m t k := by
  have hnd₂ : (s₂.map Prod.fst).Nodup := (hperm.map Prod.fst).nodup_iff.1 hnd
  constructor
  · haveI : IsAntisymm Int (· < ·) :=
      ⟨fun _ _ h h' => absurd h' (lt_asymm h)⟩
    have hs₁ : List.Sorted (· < ·) ((mergeSeries s₁ m).map MergedRow.t) :=
      List.pairwise_map.2 (pairwise_lt_mergeSeries s₁ m)
    have hs₂ : List.Sorted (· < ·) ((mergeSeries s₂ m).map MergedRow.t) :=
      List.pairwise_map.2 (pairwise_lt_mergeSeries s₂ m)
    refine List.eq_of_perm_of_sorted ?_ hs₁ hs₂
    refine (List.perm_ext_iff_of_nodup (hs₁.imp fun h => ne_of_lt h)
      (hs₂.imp fun h => ne_of_lt h)).2 fun a => ?_
    simp only [List.mem_map]
    have h₁ := exists_row_mergeSeries s₁ m a
    have h₂ := exists_row_mergeSeries s₂ m a
    constructor
    · rintro ⟨row, hm, ht⟩
      obtain ⟨p, hp, hr⟩ := h₁.1 ⟨row, hm, ht⟩
      exact h₂.2 ⟨p, hperm.subset hp, hr⟩
    · rintro ⟨row, hm, ht⟩
      obtain ⟨p, hp, hr⟩ := h₂.1 ⟨row, hm, ht⟩
      exact h₁.2 ⟨p, hperm.symm.subset hp, hr⟩
  · intro t k
    by_cases hex : ∃ p ∈ s₁, p.1 ++ "-" ++ m = k
    · obtain ⟨⟨rid, rs⟩, hp, rfl⟩ := hex
      rw [mergedValue_char s₁ m t rid rs hnd hp,
        mergedValue_char s₂ m t rid rs hnd₂ (hperm.subset hp)]
    · push_neg at hex
      rw [mergedValue_eq_entryAt, mergedValue_eq_entryAt, accumulate, accumulate,
        entryAt_accFold_untouched m s₁ [] t k hex,
        entryAt_accFold_untouched m s₂ [] t k
          (fun p hp => hex p (hperm.symm.subset hp))]

/-- Witness for C6: the §8 example against its reversed iteration order. -/
theorem c6_merge_order_independent_witness :
    (sampleSeries.Perm samplePerm ∧ (sampleSeries.map Prod.fst).Nodup) ∧
    ((mergeSeries sampleSeries "vehicle_count").map MergedRow.t =
        (mergeSeries samplePerm "vehicle_count").map MergedRow.t ∧
      ∀ (t : Int) (k : String),
        mergedValue sampleSeries "vehicle_count" t k =
          mergedValue samplePerm "vehicle_count" t k) :=
  ⟨⟨by decide, by decide⟩,
    c6_merge_order_independent sampleSeries samplePerm "vehicle_count"
      (by decide) (by decide)⟩

end Merge

namespace Replay

/-- **C4.**  On a non-empty `n`-frame sequence, a seek request `p` stores
exactly `p` clamped into `[0, n-1]`: never out of range, never rejected;
negative requests store `0` and too-large requests store `n-1`. -/
theorem c4_seek_clamps (n : Nat) (p : Int) (h : 0 < n) :
    seek n p = min (max p 0) ((n : Int) - 1) ∧
    0 ≤ seek n p ∧ seek n p ≤ (n : Int) - 1 ∧
    (p < 0 → seek n p = 0) ∧
    ((n : Int) - 1 ≤ p → seek n p = (n : Int) - 1) := by
  unfold seek sliderMin sliderMax
  refine ⟨?_, ?_, ?_, ?_, ?_⟩ <;> omega

/-- Witness for C4 at the spec's examples: `seek(99)` on 3 frames stores
2, `seek(-5)` stores 0. -/
theorem c4_seek_clamps_witness :
    0 < 3 ∧ seek 3 99 = 2 ∧ seek 3 (-5) = 0 ∧
    (seek 3 99 = min (max 99 0) ((3 : Int) - 1) ∧
      0 ≤ seek 3 99 ∧ seek 3 99 ≤ (3 : Int) - 1 ∧
      ((99 : Int) < 0 → seek 3 99 = 0) ∧
      ((3 : Int) - 1 ≤ 99 → seek 3 99 = (3 : Int) - 1)) :=
  ⟨by decide, by decide, by decide, c4_seek_clamps 3 99 (by decide)⟩

/-- **C5.**  While playing on a non-empty sequence, one interval tick
advances the cursor by exactly one position modulo the length — the last
position wraps to 0 — keeps it in range, and leaves `playing` untouched
(playback never auto-stops). -/
theorem c5_tick_advances_wraps_and_keeps_playing (n : Nat) (s : PlayerState)
    (hn : 0 < n) (hp : s.playing = true) (hc : s.cursor < n) :
    (intervalTick n s).playing = true ∧
    (intervalTick n s).cursor = (s.cursor + 1) % n ∧
    (intervalTick n s).cursor < n := by
  refine ⟨?_, ?_, ?_⟩
  · unfold intervalTick
    split <;> exact hp
  · unfold intervalTick
    by_cases h : s.cursor ≥ n - 1
    · have hc' : s.cursor = n - 1 := by omega
      rw [if_pos h]
      simp only [hc']
      rw [Nat.sub_add_cancel hn, Nat.mod_self]
    · rw [if_neg h]
      simp only
      rw [Nat.mod_eq_of_lt (by omega)]
  · unfold intervalTick
    split <;> simp <;> omega

/-- Witness for C5: with `frames = [f0, f1, f2]` and `play()` from cursor
0, three successive ticks yield cursors 1, 2, 0, all with playback still
on. -/
theorem c5_tick_witness :
    (0 < 3 ∧ (⟨0, true⟩ : PlayerState).playing = true ∧
      (⟨0, true⟩ : PlayerState).cursor < 3) ∧
    ((intervalTick 3 ⟨0, true⟩).playing = true ∧
      (intervalTick 3 ⟨0, true⟩).cursor = (0 + 1) % 3 ∧
      (intervalTick 3 ⟨0, true⟩).cursor < 3) ∧
    (intervalTick 3 ⟨0, true⟩ = ⟨1, true⟩ ∧
      intervalTick 3 (intervalTick 3 ⟨0, true⟩) = ⟨2, true⟩ ∧
      intervalTick 3 (intervalTick 3 (intervalTick 3 ⟨0, true⟩)) = ⟨0, true⟩) :=
  ⟨⟨by decide, by decide, by decide⟩,
    c5_tick_advances_wraps_and_keeps_playing 3 ⟨0, true⟩ (by decide) (by decide)
      (by decide),
    by decide⟩

end Replay

namespace Stream

theorem cid_abortIf (cid : Nat) (r : PullReq) :
    (if r.cid = cid then { r with aborted := true } else r).cid = r.cid := by
  split <;> rfl

theorem cid_settleIf (cid : Nat) (r : PullReq) :
    (if r.cid = cid then { r with settled := true } else r).cid = r.cid := by
  split <;> rfl

theorem map_cid_abortReqs (cid : Nat) (reqs : List PullReq) :
    (abortReqs cid reqs).map PullReq.cid = reqs.map PullReq.cid := by
  unfold abortReqs
  rw [List.map_map]
  exact List.map_congr_left fun r _ => cid_abortIf cid r

theorem map_cid_settleReq (cid : Nat) (reqs : List PullReq) :
    (settleReq cid reqs).map PullReq.cid = reqs.map PullReq.cid := by
  unfold settleReq
  rw [List.map_map]
  exact List.map_congr_left fun r _ => cid_settleIf cid r

theorem mem_abortReqs {cid : Nat} {reqs : List PullReq} {r : PullReq} :
    r ∈ abortReqs cid reqs ↔
      ∃ r₀ ∈ reqs,
        (if r₀.cid = cid then { r₀ with aborted := true } else r₀) = r := by
  simp [abortReqs, List.mem_map]

theorem mem_settleReq {cid : Nat} {reqs : List PullReq} {r : PullReq} :
    r ∈ settleReq cid reqs ↔
      ∃ r₀ ∈ reqs,
        (if r₀.cid = cid then { r₀ with settled := true } else r₀) = r := by
  simp [settleReq, List.mem_map]

/-- Transport of `ReqInv` to a state with the same request slot. -/
theorem ReqInv_mono {s s' : StreamState} (h : ReqInv s)
    (hreq : s'.requests = s.requests) (hctl : s'.controller = s.controller)
    (hid : s.nextId ≤ s'.nextId) : ReqInv s' := by
  obtain ⟨h1, h2, h3⟩ := h
  refine ⟨fun c hc => ?_, ?_, fun r hr hs ha => ?_⟩
  · exact lt_of_lt_of_le (h1 c (by rwa [cids, hreq] at hc)) hid
  · rw [cids, hreq]
    exact h2
  · rw [hctl]
    exact h3 r (hreq ▸ hr) hs ha

/-- After `controller.abort()` on the current controller, no request of
the session is still both unsettled and unaborted. -/
theorem no_active_after_abort {s : StreamState} {cid : Nat}
    (h3 : ∀ r ∈ s.requests, r.settled = false → r.aborted = false →
      s.controller = some r.cid)
    (hc : s.controller = some cid) :
    ∀ r ∈ abortReqs cid s.requests,
      r.settled = false → r.aborted = false → False := by
  intro r hr hs ha
  obtain ⟨r₀, hr₀, heq⟩ := mem_abortReqs.1 hr
  by_cases hcid : r₀.cid = cid
  · rw [if_pos hcid] at heq
    rw [← heq] at ha
    cases ha
  · rw [if_neg hcid] at heq
    subst heq
    have hctl := h3 r₀ hr₀ hs ha
    rw [hc] at hctl
    exact hcid (Option.some.inj hctl).symm

theorem stopFallback_requests (s : StreamState) :
    (stopFallback s).requests =
      match s.controller with
      | some cid => abortReqs cid s.requests
      | none => s.requests := by
  obtain ⟨st, ft, rt, ctl, sock, pend, reqs, lg, nid⟩ := s
  unfold stopFallback
  cases ft <;> cases ctl <;> rfl

theorem stopFallback_controller (s : StreamState) :
    (stopFallback s).controller = none := by
  obtain ⟨st, ft, rt, ctl, sock, pend, reqs, lg, nid⟩ := s
  unfold stopFallback
  cases ft <;> cases ctl <;> rfl

theorem stopFallback_nextId (s : StreamState) :
    (stopFallback s).nextId = s.nextId := by
  obtain ⟨st, ft, rt, ctl, sock, pend, reqs, lg, nid⟩ := s
  unfold stopFallback
  cases ft <;> cases ctl <;> rfl

theorem stopFallback_stopped (s : StreamState) :
    (stopFallback s).stopped = s.stopped := by
  obtain ⟨st, ft, rt, ctl, sock, pend, reqs, lg, nid⟩ := s
  unfold stopFallback
  cases ft <;> cases ctl <;> rfl

theorem stopFallback_socket (s : StreamState) :
    (stopFallback s).socket = s.socket := by
  obtain ⟨st, ft, rt, ctl, sock, pend, reqs, lg, nid⟩ := s
  unfold stopFallback
  cases ft <;> cases ctl <;> rfl

theorem stopFallback_log (s : StreamState) :
    (stopFallback s).log = s.log := by
  obtain ⟨st, ft, rt, ctl, sock, pend, reqs, lg, nid⟩ := s
  unfold stopFallback
  cases ft <;> cases ctl <;> rfl

theorem ReqInv_stopFallback {s : StreamState} (h : ReqInv s) :
    ReqInv (stopFallback s) := by
  obtain ⟨h1, h2, h3⟩ := h
  refine ⟨fun c hc => ?_, ?_, fun r hr hs ha => ?_⟩
  · rw [cids, stopFallback_requests, stopFallback_nextId] at *
    cases hctl : s.controller with
    | none =>
        rw [hctl] at hc
        exact h1 c hc
    | some cid =>
        rw [hctl] at hc
        simp only at hc
        rw [map_cid_abortReqs] at hc
        exact h1 c hc
  · rw [cids, stopFallback_requests]
    cases hctl : s.controller with
    | none => exact h2
    | some cid =>
        simp only
        rw [map_cid_abortReqs]
        exact h2
  · exfalso
    rw [stopFallback_requests] at hr
    cases hctl : s.controller with
    | none =>
        rw [hctl] at hr
        have := h3 r hr hs ha
        rw [hctl] at this
        cases this
    | some cid =>
        rw [hctl] at hr
        exact no_active_after_abort h3 hctl r hr hs ha

theorem pollStateStart_of_stopped {s : StreamState} (h : s.stopped = true) :
    pollStateStart s = s := by
  unfold pollStateStart
  rw [if_pos h]

theorem pollStateStart_requests {s : StreamState} (h : s.stopped = false) :
    (pollStateStart s).requests =
      (match s.controller with
        | some cid => abortReqs cid s.requests
        | none => s.requests) ++ [⟨s.nextId, false, false⟩] := by
  obtain ⟨st, ft, rt, ctl, sock, pend, reqs, lg, nid⟩ := s
  subst h
  unfold pollStateStart
  cases ctl <;> rfl

theorem pollStateStart_controller {s : StreamState} (h : s.stopped = false) :
    (pollStateStart s).controller = some s.nextId := by
  obtain ⟨st, ft, rt, ctl, sock, pend, reqs, lg, nid⟩ := s
  subst h
  unfold pollStateStart
  cases ctl <;> rfl

theorem pollStateStart_nextId {s : StreamState} (h : s.stopped = false) :
    (pollStateStart s).nextId = s.nextId + 1 := by
  obtain ⟨st, ft, rt, ctl, sock, pend, reqs, lg, nid⟩ := s
  subst h
  unfold pollStateStart
  cases ctl <;> rfl

theorem base_requests_map_cid (s : StreamState) :
    ((match s.controller with
      | some cid => abortReqs cid s.requests
      | none => s.requests) : List PullReq).map PullReq.cid = cids s := by
  cases s.controller <;> simp [cids, map_cid_abortReqs]

theorem ReqInv_pollStateStart {s : StreamState} (h : ReqInv s) :
    ReqInv (pollStateStart s) := by
  obtain ⟨h1, h2, h3⟩ := h
  by_cases hs : s.stopped = true
  · rw [pollStateStart_of_stopped hs]
    exact ⟨h1, h2, h3⟩
  · have hs' : s.stopped = false := by
      revert hs
      cases s.stopped <;> simp
    refine ⟨?_, ?_, ?_⟩
    · intro c hc
      rw [cids, pollStateStart_requests hs', List.map_append,
        base_requests_map_cid] at hc
      rw [pollStateStart_nextId hs']
      rcases List.mem_append.1 hc with hcin | hcnew
      · exact lt_trans (h1 c hcin) (Nat.lt_succ_self _)
      · simp only [List.map_cons, List.map_nil, List.mem_singleton] at hcnew
        rw [hcnew]
        exact Nat.lt_succ_self _
    · rw [cids, pollStateStart_requests hs', List.map_append,
        base_requests_map_cid]
      rw [List.nodup_append]
      refine ⟨h2, by simp, fun c hcin hcnew => ?_⟩
      simp only [List.map_cons, List.map_nil, List.mem_singleton] at hcnew
      rw [hcnew] at hcin
      exact absurd (h1 _ hcin) (lt_irrefl _)
    · intro r hr hset hab
      rw [pollStateStart_requests hs'] at hr
      rw [pollStateStart_controller hs']
      rcases List.mem_append.1 hr with hold | hnew
      · exfalso
        cases hctl : s.controller with
        | some cid =>
            rw [hctl] at hold
            exact no_active_after_abort h3 hctl r hold hset hab
        | none =>
            rw [hctl] at hold
            have := h3 r hold hset hab
            rw [hctl] at this
            cases this
      · simp only [List.mem_singleton] at hnew
        rw [hnew]

theorem ReqInv_ensureFallback {s : StreamState} (h : ReqInv s) :
    ReqInv (ensureFallback s) := by
  unfold ensureFallback
  split
  · exact ReqInv_pollStateStart h
  · exact h

theorem ReqInv_scheduleReconnect {s : StreamState} (h : ReqInv s) :
    ReqInv (scheduleReconnect s) := by
  unfold scheduleReconnect
  split
  · exact h
  · exact ReqInv_mono h rfl rfl (Nat.le_succ _)

theorem ReqInv_connectSocket (ok : Bool) {s : StreamState} (h : ReqInv s) :
    ReqInv (connectSocket ok s) := by
  unfold connectSocket
  split
  · exact h
  · split
    · exact ReqInv_mono h rfl rfl (Nat.le_succ _)
    · exact ReqInv_scheduleReconnect (ReqInv_ensureFallback h)

theorem ReqInv_pollStateFinish (res : Option (Option Nat)) {s : StreamState}
    (h : ReqInv s) : ReqInv (pollStateFinish res s) := by
  refine ReqInv_mono h ?_ ?_ ?_ <;> rcases res with _ | (_ | v) <;> simp [pollStateFinish]

theorem ReqInv_settleReq (cid : Nat) {s : StreamState} (h : ReqInv s) :
    ReqInv { s with requests := settleReq cid s.requests } := by
  obtain ⟨h1, h2, h3⟩ := h
  have hcids : cids { s with requests := settleReq cid s.requests } = cids s := by
    simp [cids, map_cid_settleReq]
  refine ⟨?_, ?_, ?_⟩
  · rw [hcids]
    exact h1
  · rw [hcids]
    exact h2
  · intro r hr hset hab
    simp only at hr
    obtain ⟨r₀, hr₀, heq⟩ := mem_settleReq.1 hr
    by_cases hcid : r₀.cid = cid
    · rw [if_pos hcid] at heq
      rw [← heq] at hset
      cases hset
    · rw [if_neg hcid] at heq
      subst heq
      exact h3 r₀ hr₀ hset hab

theorem cleanup_requests (s : StreamState) :
    (cleanup s).requests = (stopFallback { s with stopped := true }).requests := by
  obtain ⟨st, ft, rt, ctl, sock, pend, reqs, lg, nid⟩ := s
  unfold cleanup stopFallback
  cases ft <;> cases ctl <;> cases rt <;> cases sock <;> rfl

theorem cleanup_controller (s : StreamState) :
    (cleanup s).controller = none := by
  obtain ⟨st, ft, rt, ctl, sock, pend, reqs, lg, nid⟩ := s
  unfold cleanup stopFallback
  cases ft <;> cases ctl <;> cases rt <;> cases sock <;> rfl

theorem cleanup_nextId (s : StreamState) :
    (cleanup s).nextId = s.nextId := by
  obtain ⟨st, ft, rt, ctl, sock, pend, reqs, lg, nid⟩ := s
  unfold cleanup stopFallback
  cases ft <;> cases ctl <;> cases rt <;> cases sock <;> rfl

theorem cleanup_stopped (s : StreamState) :
    (cleanup s).stopped = true := by
  obtain ⟨st, ft, rt, ctl, sock, pend, reqs, lg, nid⟩ := s
  unfold cleanup stopFallback
  cases ft <;> cases ctl <;> cases rt <;> cases sock <;> rfl

theorem cleanup_log (s : StreamState) :
    (cleanup s).log = s.log := by
  obtain ⟨st, ft, rt, ctl, sock, pend, reqs, lg, nid⟩ := s
  unfold cleanup stopFallback
  cases ft <;> cases ctl <;> cases rt <;> cases sock <;> rfl

theorem liveSocket_cleanup (s : StreamState) :
    liveSocket (cleanup s) = false := by
  obtain ⟨st, ft, rt, ctl, sock, pend, reqs, lg, nid⟩ := s
  unfold cleanup stopFallback liveSocket
  cases ft <;> cases ctl <;> cases rt <;> cases sock <;> rfl

theorem ReqInv_cleanup {s : StreamState} (h : ReqInv s) :
    ReqInv (cleanup s) := by
  have h' : ReqInv (stopFallback { s with stopped := true }) :=
    ReqInv_stopFallback (ReqInv_mono h rfl rfl (le_refl _))
  refine ReqInv_mono h' (cleanup_requests s) ?_ ?_
  · rw [cleanup_controller, stopFallback_controller]
  · exact le_of_eq (by rw [cleanup_nextId, stopFallback_nextId])

theorem step_sockOpen (s : StreamState) :
    step s Ev.sockOpen = if liveSocket s then onOpen s else s := rfl

theorem step_sockMsg (s : StreamState) (m : Msg) :
    step s (Ev.sockMsg m) = if liveSocket s then onMessage m s else s := rfl

theorem step_sockError (s : StreamState) :
    step s Ev.sockError = if liveSocket s then onError s else s := rfl

theorem step_sockClose (s : StreamState) :
    step s Ev.sockClose = if s.socket.isSome then onClose s else s := rfl

theorem step_fireTimer (s : StreamState) (id : Nat) (ok : Bool) :
    step s (Ev.fireTimer id ok) =
      match s.pending.find? (fun e' => e'.1 == id) with
      | some (_, TimerKind.fallback) =>
          pollStateStart { s with pending := clearTimer id s.pending }
      | some (_, TimerKind.reconnect) =>
          connectSocket ok { s with pending := clearTimer id s.pending,
                                    reconnectTimer := none }
      | none => s := rfl

theorem step_settleOk (s : StreamState) (cid : Nat) (v : Option Nat) :
    step s (Ev.settleOk cid v) =
      match findReq cid s.requests with
      | some r =>
          if r.settled ∨ r.aborted then s
          else pollStateFinish (some v)
            { s with requests := settleReq cid s.requests }
      | none => s := rfl

theorem step_settleErr (s : StreamState) (cid : Nat) :
    step s (Ev.settleErr cid) =
      match findReq cid s.requests with
      | some r =>
          if r.settled then s
          else pollStateFinish none
            { s with requests := settleReq cid s.requests }
      | none => s := rfl

theorem step_detach (s : StreamState) :
    step s Ev.detach = cleanup s := rfl

theorem ReqInv_step {s : StreamState} (e : Ev) (h : ReqInv s) :
    ReqInv (step s e) := by
  cases e with
  | sockOpen =>
      rw [step_sockOpen]
      split
      · exact ReqInv_stopFallback h
      · exact h
  | sockMsg m =>
      rw [step_sockMsg]
      split
      · cases m <;> exact ReqInv_mono h rfl rfl (le_refl _)
      · exact h
  | sockError =>
      rw [step_sockError]
      split
      · exact ReqInv_ensureFallback h
      · exact h
  | sockClose =>
      rw [step_sockClose]
      split
      · exact ReqInv_scheduleReconnect (ReqInv_ensureFallback h)
      · exact h
  | fireTimer id ok =>
      rw [step_fireTimer]
      cases hfind : s.pending.find? (fun e' => e'.1 == id) with
      | none => exact h
      | some pr =>
          obtain ⟨pid, k⟩ := pr
          cases k with
          | fallback => exact ReqInv_pollStateStart (ReqInv_mono h rfl rfl (le_refl _))
          | reconnect => exact ReqInv_connectSocket ok (ReqInv_mono h rfl rfl (le_refl _))
  | settleOk cid v =>
      rw [step_settleOk]
      cases hfind : findReq cid s.requests with
      | none => exact h
      | some r =>
          show ReqInv (if r.settled = true ∨ r.aborted = true then s
            else pollStateFinish (some v)
              { s with requests := settleReq cid s.requests })
          by_cases hcond : r.settled = true ∨ r.aborted = true
          · rw [if_pos hcond]
            exact h
          · rw [if_neg hcond]
            exact ReqInv_pollStateFinish _ (ReqInv_settleReq cid h)
  | settleErr cid =>
      rw [step_settleErr]
      cases hfind : findReq cid s.requests with
      | none => exact h
      | some r =>
          show ReqInv (if r.settled = true then s
            else pollStateFinish none
              { s with requests := settleReq cid s.requests })
          by_cases hcond : r.settled = true
          · rw [if_pos hcond]
            exact h
          · rw [if_neg hcond]
            exact ReqInv_pollStateFinish _ (ReqInv_settleReq cid h)
  | detach =>
      rw [step_detach]
      exact ReqInv_cleanup h

theorem ReqInv_run {s : StreamState} (evs : List Ev) (h : ReqInv s) :
    ReqInv (run s evs) := by
  induction evs generalizing s with
  | nil => exact h
  | cons e rest ih => exact ih (ReqInv_step e h)

theorem ReqInv_attach (ok : Bool) : ReqInv (attach ok) := by
  cases ok <;> exact ⟨by decide, by decide, by decide⟩

theorem length_activePulls_le_one {s : StreamState} (h : ReqInv s) :
    (activePulls s).length ≤ 1 := by
  obtain ⟨h1, h2, h3⟩ := h
  cases hap : activePulls s with
  | nil => simp
  | cons a tl =>
      cases tl with
      | nil => simp
      | cons b tl2 =>
          exfalso
          have ha : a ∈ activePulls s := by
            rw [hap]
            exact List.mem_cons_self _ _
          have hb : b ∈ activePulls s := by
            rw [hap]
            exact List.mem_cons_of_mem _ (List.mem_cons_self _ _)
          obtain ⟨ha1, ha2⟩ := List.mem_filter.1 ha
          obtain ⟨hb1, hb2⟩ := List.mem_filter.1 hb
          rw [Bool.and_eq_true, Bool.not_eq_true', Bool.not_eq_true'] at ha2 hb2
          have hca := h3 a ha1 ha2.1 ha2.2
          have hcb := h3 b hb1 hb2.1 hb2.2
          have heq : a.cid = b.cid := Option.some.inj (hca.symm.trans hcb)
          have hpw : (activePulls s).Pairwise (fun x y => x.cid ≠ y.cid) :=
            List.Pairwise.sublist (List.filter_sublist _) (List.pairwise_map.1 h2)
          rw [hap] at hpw
          exact (List.pairwise_cons.1 hpw).1 b (List.mem_cons_self _ _) heq

/-- **C8.**  In every reachable state of an attached session, at most one
fallback pull request is in flight with its abort signal not fired:
`pollState` aborts the previous controller before issuing a new request,
and `stopFallback` aborts it before dropping it, so the previous request's
signal has always fired by the time a new request exists. -/
theorem c8_at_most_one_active_pull (ok : Bool) (evs : List Ev) :
    (activePulls (run (attach ok) evs)).length ≤ 1 :=
  length_activePulls_le_one (ReqInv_run evs (ReqInv_attach ok))

/-- **C9.**  On a live socket, a malformed push message is discarded —
same state log, no throw (the handler is a total function into the same
session) — and the next valid message is delivered normally: after
`[malformed, valid v]` the listener has been invoked exactly once more,
with `v`. -/
theorem c9_malformed_then_valid (s : StreamState) (v : Nat)
    (hlive : liveSocket s = true) :
    step s (Ev.sockMsg Msg.malformed) = s ∧
    (step (step s (Ev.sockMsg Msg.malformed)) (Ev.sockMsg (Msg.wrapped v))).log
      = s.log ++ [Delivery.push v] := by
  have h1 : step s (Ev.sockMsg Msg.malformed) = s := by
    rw [step_sockMsg, if_pos hlive]
    rfl
  refine ⟨h1, ?_⟩
  rw [h1, step_sockMsg, if_pos hlive]
  rfl

/-- Witness for C9 at a freshly attached session with an open socket. -/
theorem c9_malformed_then_valid_witness :
    liveSocket (attach true) = true ∧
    (step (attach true) (Ev.sockMsg Msg.malformed) = attach true ∧
      (step (step (attach true) (Ev.sockMsg Msg.malformed))
          (Ev.sockMsg (Msg.wrapped 42))).log
        = (attach true).log ++ [Delivery.push 42]) :=
  ⟨by decide, c9_malformed_then_valid (attach true) 42 (by decide)⟩

/-- **C2, violation trace.**  Detach while a fallback pull request is in
flight.  `cleanup` marks the session stopped, aborts the request and
leaves no pending timer — but when the aborted fetch then rejects, the
`pollState` continuation (line 47 of `websocket.ts`, which has no
`stopped` check after the `await`) schedules a *new* fallback timer after
`detach` has already returned, contradicting "no timer remains scheduled
or becomes scheduled afterwards".  (The listener itself is not invoked:
the log stays empty.) -/
theorem c2_timer_scheduled_after_detach :
    (run (attach true) [Ev.sockClose, Ev.detach]).stopped = true ∧
    (run (attach true) [Ev.sockClose, Ev.detach]).pending = [] ∧
    (∃ r ∈ (run (attach true) [Ev.sockClose, Ev.detach]).requests,
        r.settled = false ∧ r.aborted = true) ∧
    (run (attach true) [Ev.sockClose, Ev.detach, Ev.settleErr 1]).pending
      = [(3, TimerKind.fallback)] ∧
    (run (attach true) [Ev.sockClose, Ev.detach, Ev.settleErr 1]).log = [] := by
  refine ⟨by decide, by decide, ⟨⟨1, true, false⟩, by decide, by decide, by decide⟩,
    by decide, by decide⟩

/-- **C3, violation trace.**  The socket closes, fallback polling starts
(request under controller 1) and a reconnect is scheduled (timer 2).  The
reconnect succeeds and `onopen` stops the fallback, aborting the in-flight
request — but the rejected poll's continuation then reschedules the
fallback timer (4).  From then on the poll loop runs concurrently with the
open socket: the poll issued by timer 4 delivers snapshot 42 (`pull`) and
schedules timer 6, while the open socket delivers snapshot 7 (`push`).
The final state has a live socket *and* a pending fallback timer, and the
log shows both transports invoking the listener. -/
theorem c3_both_transports_active :
    liveSocket (run (attach true) [Ev.sockClose, Ev.fireTimer 2 true,
      Ev.sockOpen, Ev.settleErr 1, Ev.fireTimer 4 false,
      Ev.settleOk 5 (some 42), Ev.sockMsg (Msg.wrapped 7)]) = true ∧
    (run (attach true) [Ev.sockClose, Ev.fireTimer 2 true,
      Ev.sockOpen, Ev.settleErr 1, Ev.fireTimer 4 false,
      Ev.settleOk 5 (some 42), Ev.sockMsg (Msg.wrapped 7)]).pending
      = [(6, TimerKind.fallback)] ∧
    (run (attach true) [Ev.sockClose, Ev.fireTimer 2 true,
      Ev.sockOpen, Ev.settleErr 1, Ev.fireTimer 4 false,
      Ev.settleOk 5 (some 42), Ev.sockMsg (Msg.wrapped 7)]).log
      = [Delivery.pull 42, Delivery.push 7] ∧
    (run (attach true) [Ev.sockClose, Ev.fireTimer 2 true,
      Ev.sockOpen, Ev.settleErr 1, Ev.fireTimer 4 false,
      Ev.settleOk 5 (some 42), Ev.sockMsg (Msg.wrapped 7)]).stopped = false := by
  refine ⟨by decide, by decide, by decide, by decide⟩

theorem ensureFallback_of_stopped {s : StreamState} (h : s.stopped = true) :
    ensureFallback s = s := by
  unfold ensureFallback
  split
  · exact pollStateStart_of_stopped h
  · rfl

theorem scheduleReconnect_of_stopped {s : StreamState} (h : s.stopped = true) :
    scheduleReconnect s = s := by
  unfold scheduleReconnect
  rw [if_pos (Or.inr h)]

theorem quiet_cleanup {s : StreamState} (h : ReqInv s) :
    DetachedQuiet (cleanup s) := by
  obtain ⟨h1, h2, h3⟩ := h
  refine ⟨liveSocket_cleanup s, fun r hr => ?_⟩
  rw [cleanup_requests, stopFallback_requests] at hr
  cases hctl : s.controller with
  | none =>
      rw [hctl] at hr
      by_cases hset : r.settled = true
      · exact Or.inl hset
      · by_cases hab : r.aborted = true
        · exact Or.inr hab
        · have := h3 r hr (by revert hset; cases r.settled <;> simp)
            (by revert hab; cases r.aborted <;> simp)
          rw [hctl] at this
          cases this
  | some cid =>
      rw [hctl] at hr
      by_cases hset : r.settled = true
      · exact Or.inl hset
      · by_cases hab : r.aborted = true
        · exact Or.inr hab
        · exact absurd (no_active_after_abort h3 hctl r hr
            (by revert hset; cases r.settled <;> simp)
            (by revert hab; cases r.aborted <;> simp)) not_false

/-- Any event processed by a stopped, quiescent session leaves it stopped
and quiescent and never invokes the listener. -/
theorem step_quiet {s : StreamState} (e : Ev) (hst : s.stopped = true)
    (hq : DetachedQuiet s) :
    (step s e).stopped = true ∧ DetachedQuiet (step s e) ∧
      (step s e).log = s.log := by
  obtain ⟨hlive, hreqs⟩ := hq
  cases e with
  | sockOpen =>
      rw [step_sockOpen, hlive]
      exact ⟨hst, ⟨hlive, hreqs⟩, rfl⟩
  | sockMsg m =>
      rw [step_sockMsg, hlive]
      exact ⟨hst, ⟨hlive, hreqs⟩, rfl⟩
  | sockError =>
      rw [step_sockError, hlive]
      exact ⟨hst, ⟨hlive, hreqs⟩, rfl⟩
  | sockClose =>
      rw [step_sockClose]
      split
      · rw [show onClose s = s from by
          unfold onClose
          rw [ensureFallback_of_stopped hst, scheduleReconnect_of_stopped hst]]
        exact ⟨hst, ⟨hlive, hreqs⟩, rfl⟩
      · exact ⟨hst, ⟨hlive, hreqs⟩, rfl⟩
  | fireTimer id ok =>
      rw [step_fireTimer]
      cases hfind : s.pending.find? (fun e' => e'.1 == id) with
      | none => exact ⟨hst, ⟨hlive, hreqs⟩, rfl⟩
      | some pr =>
          obtain ⟨pid, k⟩ := pr
          cases k with
          | fallback =>
              have hps := @pollStateStart_of_stopped
                { s with pending := clearTimer id s.pending } hst
              rw [hps]
              exact ⟨hst, ⟨hlive, hreqs⟩, rfl⟩
          | reconnect =>
              have hcs : connectSocket ok
                    { s with pending := clearTimer id s.pending,
                             reconnectTimer := none }
                  = { s with pending := clearTimer id s.pending,
                              reconnectTimer := none } := by
                unfold connectSocket
                rw [if_pos hst]
              rw [hcs]
              exact ⟨hst, ⟨hlive, hreqs⟩, rfl⟩
  | settleOk cid v =>
      have hs : step s (Ev.settleOk cid v) = s := by
        rw [step_settleOk]
        cases hfind : findReq cid s.requests with
        | none => rfl
        | some r =>
            show (if r.settled = true ∨ r.aborted = true then s
              else pollStateFinish (some v)
                { s with requests := settleReq cid s.requests }) = s
            rw [if_pos (hreqs r (List.mem_of_find?_eq_some hfind))]
      rw [hs]
      exact ⟨hst, ⟨hlive, hreqs⟩, rfl⟩
  | settleErr cid =>
      have hchar : step s (Ev.settleErr cid) = s ∨
          step s (Ev.settleErr cid) = pollStateFinish none
            { s with requests := settleReq cid s.requests } := by
        rw [step_settleErr]
        cases hfind : findReq cid s.requests with
        | none => exact Or.inl rfl
        | some r =>
            show (if r.settled = true then s
              else pollStateFinish none
                { s with requests := settleReq cid s.requests }) = s ∨
              (if r.settled = true then s
                else pollStateFinish none
                  { s with requests := settleReq cid s.requests }) =
                pollStateFinish none
                  { s with requests := settleReq cid s.requests }
            by_cases hset : r.settled = true
            · rw [if_pos hset]
              exact Or.inl rfl
            · rw [if_neg hset]
              exact Or.inr rfl
      rcases hchar with hs | hs
      · rw [hs]
        exact ⟨hst, ⟨hlive, hreqs⟩, rfl⟩
      · rw [hs]
        refine ⟨hst, ⟨hlive, fun r' hr' => ?_⟩, rfl⟩
        obtain ⟨r₀, hr₀, heq⟩ := mem_settleReq.1 hr'
        by_cases hcid : r₀.cid = cid
        · rw [if_pos hcid] at heq
          rw [← heq]
          exact Or.inl rfl
        · rw [if_neg hcid] at heq
          subst heq
          exact hreqs r₀ hr₀
  | detach =>
      rw [step_detach]
      refine ⟨cleanup_stopped s, ⟨liveSocket_cleanup s, fun r hr => ?_⟩,
        cleanup_log s⟩
      rw [cleanup_requests, stopFallback_requests] at hr
      cases hctl : s.controller with
      | none =>
          rw [hctl] at hr
          exact hreqs r hr
      | some cid =>
          rw [hctl] at hr
          obtain ⟨r₀, hr₀, heq⟩ := mem_abortReqs.1 hr
          by_cases hcid : r₀.cid = cid
          · rw [if_pos hcid] at heq
            rw [← heq]
            exact Or.inr rfl
          · rw [if_neg hcid] at heq
            subst heq
            exact hreqs r₀ hr₀

/-- The true half of the detach contract: once `detach` has returned, the
listener is never invoked again — no matter which events (late socket
callbacks, stray timer firings, settling pull requests, repeated detach)
the environment still delivers.  (The stray fallback timer of
`c2_timer_scheduled_after_detach` fires into the `stopped` guard and
produces no delivery.) -/
theorem no_listener_after_detach (ok : Bool) (pre post : List Ev) :
    (run (run (attach ok) (pre ++ [Ev.detach])) post).log
      = (run (attach ok) (pre ++ [Ev.detach])).log := by
  have hreq : ReqInv (run (attach ok) pre) := ReqInv_run pre (ReqInv_attach ok)
  have hsd : run (attach ok) (pre ++ [Ev.detach])
      = cleanup (run (attach ok) pre) := by
    rw [run, List.foldl_append]
    rfl
  have hstop : (run (attach ok) (pre ++ [Ev.detach])).stopped = true := by
    rw [hsd, cleanup_stopped]
  have hq : DetachedQuiet (run (attach ok) (pre ++ [Ev.detach])) := by
    rw [hsd]
    exact quiet_cleanup hreq
  suffices H : ∀ (s : StreamState), s.stopped = true → DetachedQuiet s →
      ∀ evs : List Ev, (run s evs).log = s.log from
    H _ hstop hq post
  intro s hst hq' evs
  induction evs generalizing s with
  | nil => rfl
  | cons e rest ih =>
      obtain ⟨h1, h2, h3⟩ := step_quiet e hst hq'
      calc (run (step s e) rest).log = (step s e).log := ih _ h1 h2
        _ = s.log := h3

end Stream

end CityFlow
